import Mathlib

/-!
Shallow embedding of the popol readiness-notification library (src/lib.rs)
and proofs about the claims of its specification.

Machine integers are modelled as follows: `Event` (`libc::c_short`, a 16-bit
integer used purely as a bitmask) is a `Nat` holding the 16-bit pattern, with
bitwise complement taken against `0xffff`; `RawFd` (`c_int`) is an `Int`;
`usize` counters are `Nat`.  The `poll(2)` syscall is modelled by an oracle
value (`SysResult`): either the list of `revents` the kernel wrote into the
passed array (the syscall's return value is then the number of non-zero
entries, 0 meaning timeout), or an errno for a `-1` return.
-/

namespace Popol

/-- Event bitmask, `libc::c_short` used as a 16-bit bit pattern. -/
abbrev Event := Nat

namespace event

/-- `libc::POLLIN`. -/
def POLLIN : Event := 0x001

/-- `libc::POLLPRI`. -/
def POLLPRI : Event := 0x002

/-- `libc::POLLOUT`. -/
def POLLOUT : Event := 0x004

/-- `libc::POLLERR`. -/
def POLLERR : Event := 0x008

/-- `libc::POLLHUP`. -/
def POLLHUP : Event := 0x010

/-- `libc::POLLNVAL`. -/
def POLLNVAL : Event := 0x020

/-- `libc::POLLWRBAND`. -/
def POLLWRBAND : Event := 0x200

/-- `pub const READ: Event = POLLIN | POLLPRI;` -/
def READ : Event := POLLIN ||| POLLPRI

/-- `pub const WRITE: Event = POLLOUT | libc::POLLWRBAND;` -/
def WRITE : Event := POLLOUT ||| POLLWRBAND

/-- `pub const ALL: Event = READ | WRITE;` -/
def ALL : Event := READ ||| WRITE

/-- `pub const NONE: Event = 0x0;` -/
def NONE : Event := 0x0

end event

/-- Bitwise complement of a 16-bit mask (`!events` on a `c_short` pattern). -/
def not16 (e : Event) : Event := 0xffff ^^^ e

/-- One `pollfd` record: `struct PollFd { fd: RawFd, events: Event, revents: Event }`. -/
structure PollFd where
  fd : Int
  events : Event
  revents : Event
deriving DecidableEq, Repr

/-- `PollFd::new(fd, events)`: revents starts zeroed. -/
def PollFd.new (fd : Int) (events : Event) : PollFd :=
  { fd := fd, events := events, revents := 0 }

/-- `PollFd::set`: `self.events |= events;`. -/
def PollFd.set (f : PollFd) (events : Event) : PollFd :=
  { f with events := f.events ||| events }

/-- `PollFd::unset`: `self.events &= !events;`. -/
def PollFd.unset (f : PollFd) (events : Event) : PollFd :=
  { f with events := f.events &&& not16 events }

/-- `HasPoll::has_events` for `PollFd`: `self.revents != 0`. -/
def PollFd.has_events (f : PollFd) : Bool := f.revents != 0

/-- Clear the readiness bits of a record (the per-record effect of `Poll::reset`). -/
def PollFd.clear (f : PollFd) : PollFd := { f with revents := 0 }

/-- Rust `std::time::Duration`: seconds (`u64`) plus nanoseconds (`u32`, below 10^9). -/
structure Duration where
  secs : Nat
  nanos : Nat
deriving DecidableEq, Repr

/-- `Duration::from_millis(m)`: `secs = m / 1000`, `nanos = (m % 1000) * 1_000_000`. -/
def Duration.from_millis (m : Nat) : Duration :=
  { secs := m / 1000, nanos := (m % 1000) * 1000000 }

/-- `Duration::as_millis(): u128 = secs * 1000 + nanos / 1_000_000`. -/
def Duration.as_millis (d : Duration) : Nat :=
  d.secs * 1000 + d.nanos / 1000000

/-- `pub enum Timeout { After(Duration), Never }`. -/
inductive Timeout where
  | After (d : Duration)
  | Never
deriving DecidableEq, Repr

/-- Rust `as libc::c_int` on a `u128`: truncate to the low 32 bits and
reinterpret as a two's-complement signed 32-bit integer. -/
def c_int_of_u128 (n : Nat) : Int :=
  let r : Nat := n % 2 ^ 32
  if r < 2 ^ 31 then (r : Int) else (r : Int) - 2 ^ 32

/-- The timeout conversion performed at the top of `Poll::wait_timeout`
(src/lib.rs lines 308-311): `After(d)` becomes `d.as_millis() as c_int`,
`Never` becomes `-1`. -/
def pollTimeout : Timeout → Int
  | .After d => c_int_of_u128 d.as_millis
  | .Never => -1

/-- `struct Poll<K> { events_count: usize, index: Vec<K>, list: Vec<PollFd> }`. -/
structure Poll (K : Type) where
  events_count : Nat
  index : List K
  list : List PollFd

/-- `Poll::new()`. -/
def Poll.new {K : Type} : Poll K :=
  { events_count := 0, index := [], list := [] }

/-- `Poll::len()`. -/
def Poll.len {K : Type} (p : Poll K) : Nat := p.list.length

/-- `Poll::is_empty()`. -/
def Poll.is_empty {K : Type} (p : Poll K) : Bool := p.list.isEmpty

/-- `Poll::reset()`: clear every record's `revents`, zero `events_count`,
and return the previous count (modelled as new state paired with the
returned count). -/
def Poll.reset {K : Type} (p : Poll K) : Poll K × Nat :=
  ({ events_count := 0, index := p.index, list := p.list.map PollFd.clear },
   p.events_count)

/-- `Poll::insert(key, source)`: push onto `index` and `list`. -/
def Poll.insert {K : Type} (p : Poll K) (key : K) (source : PollFd) : Poll K :=
  { p with index := p.index ++ [key], list := p.list ++ [source] }

/-- `Poll::register(key, fd, events)`: `self.reset(); self.insert(key, PollFd::new(fd, events))`. -/
def Poll.register {K : Type} (p : Poll K) (key : K) (fd : Int) (events : Event) : Poll K :=
  (p.reset).1.insert key (PollFd.new fd events)

/-- `Iterator::position(|k| k == key)` on a list of keys. -/
def position {K : Type} [DecidableEq K] (key : K) : List K → Option Nat
  | [] => none
  | k :: ks => if k = key then some 0 else (position key ks).map (· + 1)

/-- `Poll::find(&self, key)`: `self.index.iter().position(|k| k == key)`. -/
def Poll.find {K : Type} [DecidableEq K] (p : Poll K) (key : K) : Option Nat :=
  position key p.index

/-- `Vec::swap_remove(ix)` for an in-bounds index: overwrite slot `ix` with
the last element, then drop the last slot. -/
def swapRemove {α : Type} (l : List α) (ix : Nat) : List α :=
  match l.getLast? with
  | none => l
  | some last => (l.set ix last).dropLast

/-- In-place update of the element at an index (Rust `self.list[ix].f(...)`). -/
def modifyAt {α : Type} (f : α → α) : Nat → List α → List α
  | _, [] => []
  | 0, x :: xs => f x :: xs
  | n + 1, x :: xs => x :: modifyAt f n xs

/-- `Poll::unregister(&key)`: reset, then swap-remove the found index from
both sequences (no-op if the key is absent). -/
def Poll.unregister {K : Type} [DecidableEq K] (p : Poll K) (key : K) : Poll K :=
  let q := (p.reset).1
  match q.find key with
  | some ix => { q with index := swapRemove q.index ix, list := swapRemove q.list ix }
  | none => q

/-- `Poll::set(&key, events)`: reset, then OR the mask into the found
record's interest; returns whether a record was found. -/
def Poll.set {K : Type} [DecidableEq K] (p : Poll K) (key : K) (events : Event) :
    Poll K × Bool :=
  let q := (p.reset).1
  match q.find key with
  | some ix => ({ q with list := modifyAt (fun f => f.set events) ix q.list }, true)
  | none => (q, false)

/-- `Poll::unset(&key, events)`: reset, then AND-NOT the mask from the found
record's interest; returns whether a record was found. -/
def Poll.unset {K : Type} [DecidableEq K] (p : Poll K) (key : K) (events : Event) :
    Poll K × Bool :=
  let q := (p.reset).1
  match q.find key with
  | some ix => ({ q with list := modifyAt (fun f => f.unset events) ix q.list }, true)
  | none => (q, false)

/-- `Poll::get(&key)`: borrow the record at the found index. -/
def Poll.get {K : Type} [DecidableEq K] (p : Poll K) (key : K) : Option PollFd :=
  (p.find key).bind fun ix => p.list[ix]?

/-- `Poll::get_mut(&key)`: the mutable borrow targets the same record that
`get` returns (the one at `find key`); modelled by its target value. -/
def Poll.get_mut {K : Type} [DecidableEq K] (p : Poll K) (key : K) : Option PollFd :=
  (p.find key).bind fun ix => p.list[ix]?

/-- Oracle for one `libc::poll` invocation: either the `revents` the kernel
wrote into the array (return value = number of non-zero entries, 0 on
timeout), or an errno for a `-1` return. -/
inductive SysResult where
  | ok (revs : List Event)
  | err (errno : Int)
deriving DecidableEq, Repr

/-- Store the kernel-written `revents` into the record array. -/
def applyRevents (list : List PollFd) (revs : List Event) : List PollFd :=
  list.zipWith (fun f r => { f with revents := r }) revs

/-- Number of entries with non-zero `revents`: the return value of a
successful `poll` call. -/
def countReady (revs : List Event) : Nat :=
  (revs.filter (fun r => r != 0)).length

/-- `Poll::wait_timeout(timeout)` (src/lib.rs lines 305-334): reset, convert
the timeout, invoke the syscall, then branch on its result exactly as the
source does (`result == 0` splits on `is_empty`; `result > 0` stores the
count; `-1` surfaces the OS error). -/
def Poll.wait_timeout {K : Type} (p : Poll K) (t : Timeout) (sys : SysResult) :
    Poll K × Except Int Bool :=
  let q := (p.reset).1
  let _ms : Int := pollTimeout t
  match sys with
  | .err e => (q, .error e)
  | .ok revs =>
    let result := countReady (revs.take q.list.length)
    let q := { q with list := applyRevents q.list revs }
    if result = 0 then
      if q.is_empty then (q, .ok false) else (q, .ok true)
    else
      ({ q with events_count := result }, .ok false)

/-- Outcome of `Poll::wait`: normal return, a `debug_assert!` panic, or a
surfaced OS error. -/
inductive WaitOutcome where
  | ok
  | panicked
  | oserr (e : Int)
deriving DecidableEq, Repr

/-- `Poll::wait()` in a build with debug assertions:
`debug_assert!(self.wait_timeout(Timeout::Never)?); Ok(())` evaluates the
inner call, propagates its error, and panics when the returned boolean is
`false`. -/
def Poll.wait_debug {K : Type} (p : Poll K) (sys : SysResult) : Poll K × WaitOutcome :=
  match p.wait_timeout .Never sys with
  | (q, .ok true) => (q, .ok)
  | (q, .ok false) => (q, .panicked)
  | (q, .error e) => (q, .oserr e)

/-- `Poll::wait()` in a release build: `debug_assert!` does not evaluate its
argument, so the body is just `Ok(())` and the registry is untouched. -/
def Poll.wait_release {K : Type} (p : Poll K) : Poll K × WaitOutcome :=
  (p, .ok)

/-- Number of records whose readiness mask is non-empty (what iteration
would yield, and what a successful poll's return value counts). -/
def readyCount {K : Type} (p : Poll K) : Nat :=
  (p.list.filter PollFd.has_events).length

/-- A reachable registry state with one source whose readiness was just
reported: key 0, fd 3, `READ` interest, `revents = POLLIN`, one event. -/
def demoPoll : Poll Nat :=
  { events_count := 1, index := [0], list := [⟨3, event.READ, 1⟩] }

/-- One key-based mutating call on the registry, with the argument the
caller passed. -/
inductive Op (K : Type) where
  | register (key : K) (fd : Int) (events : Event)
  | unregister (key : K)
  | set (key : K) (events : Event)
  | unset (key : K) (events : Event)

/-- Perform one mutating call (the `set`/`unset` found-flag is dropped). -/
def Poll.apply {K : Type} [DecidableEq K] (p : Poll K) : Op K → Poll K
  | .register k fd ev => p.register k fd ev
  | .unregister k => p.unregister k
  | .set k ev => (p.set k ev).1
  | .unset k ev => (p.unset k ev).1

/-- Perform a sequence of mutating calls. -/
def Poll.run {K : Type} [DecidableEq K] (p : Poll K) (ops : List (Op K)) : Poll K :=
  ops.foldl Poll.apply p

/-- Clear the readiness bits of a key/record pair. -/
def clearPair {K : Type} (z : K × PollFd) : K × PollFd := (z.1, z.2.clear)

/-- Ghost execution of one mutating call on the list of key/record pairs,
mirroring `Poll.apply` but keeping each key attached to the record it was
registered with. -/
def pairedApply {K : Type} [DecidableEq K] (zs : List (K × PollFd)) : Op K → List (K × PollFd)
  | .register k fd ev => zs.map clearPair ++ [(k, PollFd.new fd ev)]
  | .unregister k =>
    let ws := zs.map clearPair
    match position k (ws.map Prod.fst) with
    | some ix => swapRemove ws ix
    | none => ws
  | .set k ev =>
    let ws := zs.map clearPair
    match position k (ws.map Prod.fst) with
    | some ix => modifyAt (fun z => (z.1, z.2.set ev)) ix ws
    | none => ws
  | .unset k ev =>
    let ws := zs.map clearPair
    match position k (ws.map Prod.fst) with
    | some ix => modifyAt (fun z => (z.1, z.2.unset ev)) ix ws
    | none => ws

/-- Ghost execution of a sequence of mutating calls from the empty registry. -/
def pairedRun {K : Type} [DecidableEq K] (ops : List (Op K)) : List (K × PollFd) :=
  ops.foldl pairedApply []

/-- The mask has only `READ`/`WRITE` class bits (`POLLIN`, `POLLPRI`,
`POLLOUT`, `POLLWRBAND`): its intersection with the complement of `ALL`
is empty. -/
def maskOnlyRW (e : Event) : Prop := e &&& not16 event.ALL = 0

/-- The interest-mask argument an operation stores into a record (`0`,
trivially `READ`/`WRITE`-only, for the operations that store none). -/
def opMask {K : Type} : Op K → Event
  | .register _ _ ev => ev
  | .set _ ev => ev
  | .unregister _ => 0
  | .unset _ _ => 0

/-- `Iter::next` driven to exhaustion (`impl Iterator for Iter`): walk keys
and records in lock-step, keep the pairs whose record has events, return
`none` when the two sequences are exhausted at different times (the
`panic!("broken iterator")` arm). -/
def iterAll {K : Type} : List K → List PollFd → Option (List (K × PollFd))
  | [], [] => some []
  | k :: ks, f :: fs =>
    if f.has_events then (iterAll ks fs).map (fun rest => (k, f) :: rest)
    else iterAll ks fs
  | _, _ => none

/-- `Waker::reset(fd)`: drain the reader in 4096-byte reads until the
non-blocking read reports `WouldBlock` (buffer empty).  The state is the
number of unread bytes buffered in the waker's reader end; the waker owns
both ends, so reads never hit end-of-file or another error. -/
def Waker.reset (buf : Nat) : Except Int Unit :=
  if _h : buf = 0 then Except.ok ()
  else Waker.reset (buf - 4096)
termination_by buf
decreasing_by omega

/-- Waker socket state: unread bytes buffered at the reader end, and the
kernel buffer capacity (a write blocks once `buf` reaches `cap`). -/
structure WakerSt where
  buf : Nat
  cap : Nat
deriving DecidableEq, Repr

/-- External outcome of one attempt of `(&self.writer).write_all(&[0x1])`:
the write proceeds normally (succeeding unless the kernel buffer is full,
in which case it reports `WouldBlock`), or it is interrupted by a signal
(`ErrorKind::Interrupted`), or it fails with another OS error. -/
inductive WriteEv where
  | proceed
  | signal
  | fail (e : Int)
deriving DecidableEq, Repr

/-- `Waker::wake()` (src/lib.rs lines 526-538): write one byte; on
`WouldBlock` drain the reader with `Waker::reset` and retry; on
`Interrupted` retry; surface any other error.  The trace lists the external
outcome of each successive write attempt; `none` means the trace ended with
the call still retrying. -/
def Waker.wake (st : WakerSt) : List WriteEv → Option (WakerSt × Except Int Unit)
  | [] => none
  | .signal :: rest => Waker.wake st rest
  | .fail e :: _ => some (st, .error e)
  | .proceed :: rest =>
    if st.buf < st.cap then some ({ st with buf := st.buf + 1 }, .ok ())
    else
      match Waker.reset st.buf with
      | .error e => some (st, .error e)
      | .ok _ => Waker.wake { st with buf := 0 } rest


/-- A registry with duplicate keys: key 7 appears at indices 0 and 1. -/
def demoDup : Poll Nat :=
  { events_count := 0, index := [7, 7],
    list := [⟨3, event.READ, 0⟩, ⟨4, event.WRITE, 0⟩] }

/-- A sample operation sequence whose mask arguments are all `READ`/`WRITE`
class (the `unset` mask is unrestricted by the amended claim C5). -/
def demoOps : List (Op Nat) :=
  [Op.register 0 3 event.READ, Op.set 0 event.WRITE, Op.unset 0 event.POLLHUP]

instance maskOnlyRW.dec (e : Event) : Decidable (maskOnlyRW e) :=
  inferInstanceAs (Decidable (e &&& not16 event.ALL = 0))

/-! ## Supporting lemmas -/

lemma length_applyRevents (l : List PollFd) (revs : List Event) :
    (applyRevents l revs).length = min l.length revs.length := by
  simp [applyRevents]

lemma isEmpty_congr {α β : Type} {l1 : List α} {l2 : List β} (h : l1.length = l2.length) :
    l1.isEmpty = l2.isEmpty := by
  cases l1 <;> cases l2 <;> simp_all

lemma filter_applyRevents (l : List PollFd) (revs : List Event)
    (h : revs.length = l.length) :
    ((applyRevents l revs).filter PollFd.has_events).length = countReady revs := by
  induction l generalizing revs with
  | nil =>
    cases revs with
    | nil => simp [applyRevents, countReady]
    | cons r rs => simp at h
  | cons f l ih =>
    cases revs with
    | nil => simp at h
    | cons r rs =>
      simp only [List.length_cons, Nat.succ_inj] at h
      simp only [applyRevents, List.zipWith_cons_cons, countReady] at ih ⊢
      rw [List.filter_cons, List.filter_cons]
      have hev : PollFd.has_events { f with revents := r } = (r != 0) := rfl
      rw [hev]
      by_cases hr : r = 0
      · simp [hr, ih rs h]
      · simp [hr, ih rs h]

lemma wait_timeout_ok_eq {K : Type} (p : Poll K) (t : Timeout) (revs : List Event)
    (h : revs.length = p.list.length) :
    p.wait_timeout t (.ok revs) =
      ({ events_count := countReady revs, index := p.index,
         list := applyRevents (p.list.map PollFd.clear) revs },
       if countReady revs = 0 then
         (if p.list.isEmpty then Except.ok false else Except.ok true)
       else Except.ok false) := by
  have hlen : revs.take (p.list.map PollFd.clear).length = revs := by
    rw [List.length_map, ← h, List.take_length]
  have hemp : (applyRevents (p.list.map PollFd.clear) revs).isEmpty = p.list.isEmpty := by
    refine isEmpty_congr ?_
    rw [length_applyRevents, List.length_map, ← h, Nat.min_self]
  by_cases hn : countReady revs = 0
  · simp only [Poll.wait_timeout, Poll.reset, hlen, hn, if_true, Poll.is_empty, hemp]
    cases hcase : p.list.isEmpty <;> simp [hn, hcase]
  · simp only [Poll.wait_timeout, Poll.reset, hlen, Poll.is_empty]
    simp [hn]

/-! ## Claims C1-C4 -/

/-- Claim C1 (code bug): at a state where the syscall reports one readiness
event, `wait_timeout(Never)` returns `Ok(false)` after updating the state,
but `wait()` is not that call with the boolean discarded: a debug build
evaluates `debug_assert!(self.wait_timeout(Timeout::Never)?)` and panics on
the `Ok(false)` event path, while a release build does not evaluate the
`debug_assert!` argument at all, so it performs no wait and no reset
(`events_count` keeps its stale value 1 instead of being reset). -/
theorem claim_c1_theorem :
    (demoPoll.wait_timeout .Never (.ok [1])).2 = Except.ok false
    ∧ demoPoll.wait_debug (.ok [1])
        = ((demoPoll.wait_timeout .Never (.ok [1])).1, WaitOutcome.panicked)
    ∧ demoPoll.wait_release = (demoPoll, WaitOutcome.ok)
    ∧ demoPoll.wait_release.1.events_count = 1
    ∧ (demoPoll.wait_timeout .Never (.ok [1])).1.events_count = 1
    ∧ (demoPoll.reset).1.events_count = 0 :=
  ⟨rfl, rfl, rfl, rfl, rfl, rfl⟩

/-- Claim C2 (code bug): `Timeout::Never` does convert to `-1`, but
`After(d)` is converted by the truncating cast `d.as_millis() as c_int`,
not by `min(d_ms, INT_MAX)`: at d = 2^31 milliseconds the code produces
`-2147483648` where the claimed saturation produces `2147483647`. -/
theorem claim_c2_theorem :
    pollTimeout .Never = -1
    ∧ pollTimeout (.After (Duration.from_millis 2147483648)) = -2147483648
    ∧ pollTimeout (.After (Duration.from_millis 2147483648)) ≠
        min ((2147483648 : Int)) 2147483647 := by
  refine ⟨rfl, by decide, by decide⟩

/-- Claim C3 counterexample: on an empty registry with an elapsed timeout
(syscall returns 0), no readiness event is observed, yet `wait_timeout`
returns `Ok(false)`, so "returns Ok(true) iff no readiness event was
observed" is false at this input. -/
theorem claim_c3_counterexample :
    ((Poll.new (K := Nat)).wait_timeout (.After (Duration.from_millis 1)) (.ok [])).2
        = Except.ok false
    ∧ readyCount ((Poll.new (K := Nat)).wait_timeout
        (.After (Duration.from_millis 1)) (.ok [])).1 = 0
    ∧ ¬(((Poll.new (K := Nat)).wait_timeout (.After (Duration.from_millis 1)) (.ok [])).2
          = Except.ok true ↔
        readyCount ((Poll.new (K := Nat)).wait_timeout
          (.After (Duration.from_millis 1)) (.ok [])).1 = 0) := by
  refine ⟨rfl, rfl, fun hiff => ?_⟩
  have h2 : (Except.ok false : Except Int Bool) = Except.ok true := hiff.mpr rfl
  simp at h2

/-- Claim C3 as amended: for every registry, timeout and kernel-written
readiness outcome, `wait_timeout` returns `Ok(true)` iff no readiness event
was observed and the registry is non-empty, and `Ok(false)` iff at least
one readiness event was observed or the registry is empty. -/
theorem claim_c3_theorem {K : Type} (p : Poll K) (t : Timeout) (revs : List Event)
    (h : revs.length = p.list.length) :
    ((p.wait_timeout t (.ok revs)).2 = .ok true ↔
       readyCount (p.wait_timeout t (.ok revs)).1 = 0 ∧ p.list ≠ []) ∧
    ((p.wait_timeout t (.ok revs)).2 = .ok false ↔
       0 < readyCount (p.wait_timeout t (.ok revs)).1 ∨ p.list = []) := by
  rw [wait_timeout_ok_eq p t revs h]
  have hrc : readyCount
      ({ events_count := countReady revs, index := p.index,
         list := applyRevents (p.list.map PollFd.clear) revs } : Poll K)
      = countReady revs := by
    refine filter_applyRevents _ _ ?_
    simp [h]
  simp only [readyCount] at hrc ⊢
  rw [hrc]
  by_cases hn : countReady revs = 0
  · cases hl : p.list with
    | nil => simp [hn, hl]
    | cons a as => simp [hn, hl]
  · cases hl : p.list with
    | nil =>
      rw [hl] at h
      simp at h
      simp [countReady, h] at hn
    | cons a as => simp [hn, hl, Nat.pos_of_ne_zero hn]

/-- Claim C3 witness: the amended theorem applied at a one-source registry
whose record the kernel reported ready. -/
theorem claim_c3_witness :
    (demoPoll.wait_timeout Timeout.Never (.ok [1])).2 = Except.ok false :=
  (claim_c3_theorem demoPoll Timeout.Never [1] rfl).2.mpr (Or.inl (by decide))

/-- Claim C4: `wait_timeout` handles the syscall result exactly as claimed:
0 with empty registry gives `Ok(false)`; 0 with non-empty registry gives
`Ok(true)` with `events_count` still 0; n > 0 sets `events_count = n` and
gives `Ok(false)`; -1 surfaces the OS error (any errno, including EINTR)
without retrying. -/
theorem claim_c4_theorem {K : Type} (p : Poll K) (t : Timeout) (revs : List Event)
    (e : Int) (h : revs.length = p.list.length) :
    ((countReady revs = 0 ∧ p.list = []) →
       (p.wait_timeout t (.ok revs)).2 = .ok false ∧
         (p.wait_timeout t (.ok revs)).1.events_count = 0)
    ∧ ((countReady revs = 0 ∧ p.list ≠ []) →
       (p.wait_timeout t (.ok revs)).2 = .ok true ∧
         (p.wait_timeout t (.ok revs)).1.events_count = 0)
    ∧ (0 < countReady revs →
       (p.wait_timeout t (.ok revs)).2 = .ok false ∧
         (p.wait_timeout t (.ok revs)).1.events_count = countReady revs)
    ∧ (p.wait_timeout t (.err e)).2 = .error e := by
  rw [wait_timeout_ok_eq p t revs h]
  refine ⟨?_, ?_, ?_, rfl⟩
  · rintro ⟨hn, hl⟩
    simp [hn, hl]
  · rintro ⟨hn, hl⟩
    have : p.list.isEmpty = false := by
      cases hc : p.list with
      | nil => exact absurd hc hl
      | cons a as => rfl
    simp [hn, this]
  · intro hn
    simp [Nat.pos_iff_ne_zero.mp hn]

/-- Claim C4 witness: the syscall-result handling applied at a one-source
registry where the syscall reported one event. -/
theorem claim_c4_witness :
    (demoPoll.wait_timeout Timeout.Never (.ok [1])).2 = Except.ok false ∧
    (demoPoll.wait_timeout Timeout.Never (.ok [1])).1.events_count = countReady [1] :=
  (claim_c4_theorem demoPoll Timeout.Never [1] 4 rfl).2.2.1 (by decide)

lemma land_eq_zero_iff (x y : Nat) :
    x &&& y = 0 ↔ ∀ i, x.testBit i = true → y.testBit i = false := by
  constructor
  · intro h i hx
    have hb := congrArg (fun n => n.testBit i) h
    simp only [Nat.testBit_land, Nat.zero_testBit, Bool.and_eq_false_iff] at hb
    rcases hb with hb | hb
    · rw [hx] at hb
      exact absurd hb (by simp)
    · exact hb
  · intro h
    apply Nat.eq_of_testBit_eq
    intro i
    rw [Nat.testBit_land, Nat.zero_testBit]
    cases hx : x.testBit i with
    | false => simp
    | true => simp [h i hx]

lemma maskOnlyRW_or {a b : Event} (ha : maskOnlyRW a) (hb : maskOnlyRW b) :
    maskOnlyRW (a ||| b) := by
  rw [maskOnlyRW, land_eq_zero_iff] at ha hb ⊢
  intro i hi
  rw [Nat.testBit_lor] at hi
  rcases Bool.or_eq_true_iff.mp hi with h | h
  · exact ha i h
  · exact hb i h

lemma maskOnlyRW_and {a c : Event} (ha : maskOnlyRW a) : maskOnlyRW (a &&& c) := by
  rw [maskOnlyRW, land_eq_zero_iff] at ha ⊢
  intro i hi
  rw [Nat.testBit_land, Bool.and_eq_true_iff] at hi
  exact ha i hi.1

lemma mem_dropLast {α : Type} {x : α} : ∀ {l : List α}, x ∈ l.dropLast → x ∈ l := by
  intro l
  induction l with
  | nil => simp
  | cons a l ih =>
    cases l with
    | nil => simp
    | cons b l =>
      intro h
      have h2 : x ∈ a :: (b :: l).dropLast := h
      rcases List.mem_cons.mp h2 with h | h
      · simp [h]
      · exact List.mem_cons_of_mem _ (ih h)

lemma getLast?_mem {α : Type} {l : List α} {a : α} (h : l.getLast? = some a) : a ∈ l := by
  induction l with
  | nil => simp at h
  | cons b l ih =>
    cases hl : l with
    | nil =>
      subst hl
      simp [List.getLast?] at h
      simp [h]
    | cons c l2 =>
      rw [hl] at h ih
      rw [List.getLast?_cons_cons] at h
      exact List.mem_cons_of_mem _ (ih h)

lemma mem_swapRemove {α : Type} {x : α} {l : List α} {ix : Nat}
    (h : x ∈ swapRemove l ix) : x ∈ l := by
  unfold swapRemove at h
  cases hl : l.getLast? with
  | none => rw [hl] at h; exact h
  | some last =>
    rw [hl] at h
    have h2 := mem_dropLast h
    rcases List.mem_or_eq_of_mem_set h2 with h3 | h3
    · exact h3
    · subst h3
      exact getLast?_mem hl

lemma mem_modifyAt {α : Type} {f : α → α} {x : α} :
    ∀ {i : Nat} {l : List α}, x ∈ modifyAt f i l → x ∈ l ∨ ∃ y, y ∈ l ∧ x = f y := by
  intro i l
  induction l generalizing i with
  | nil => simp [modifyAt]
  | cons a l ih =>
    intro h
    cases i with
    | zero =>
      rw [modifyAt] at h
      rcases List.mem_cons.mp h with h | h
      · exact Or.inr ⟨a, List.mem_cons_self a l, h⟩
      · exact Or.inl (List.mem_cons_of_mem _ h)
    | succ n =>
      rw [modifyAt] at h
      rcases List.mem_cons.mp h with h | h
      · exact Or.inl (by simp [h])
      · rcases ih h with h2 | ⟨y, hy, hxy⟩
        · exact Or.inl (List.mem_cons_of_mem _ h2)
        · exact Or.inr ⟨y, List.mem_cons_of_mem _ hy, hxy⟩

lemma reset_revents {K : Type} (p : Poll K) {f : PollFd}
    (h : f ∈ (p.reset).1.list) : f.revents = 0 := by
  simp only [Poll.reset, List.mem_map] at h
  rcases h with ⟨g, _, rfl⟩
  rfl

/-- Claim C6: after any mutating operation (register, unregister, set or
unset, and reset itself), every record's `revents` equals 0 and
`events_count` equals 0; `reset` additionally returns the count of events
collected before the call. -/
theorem claim_c6_theorem {K : Type} [DecidableEq K] (p : Poll K) (op : Op K) :
    (∀ f ∈ (Poll.apply p op).list, f.revents = 0)
    ∧ (Poll.apply p op).events_count = 0
    ∧ (p.reset).2 = p.events_count
    ∧ (∀ f ∈ (p.reset).1.list, f.revents = 0)
    ∧ (p.reset).1.events_count = 0 := by
  refine ⟨?_, ?_, rfl, fun f hf => reset_revents p hf, rfl⟩
  · intro f hf
    cases op with
    | register k fd ev =>
      simp only [Poll.apply, Poll.register, Poll.insert, List.mem_append] at hf
      rcases hf with hf | hf
      · exact reset_revents p hf
      · simp at hf
        subst hf
        rfl
    | unregister k =>
      simp only [Poll.apply, Poll.unregister] at hf
      rcases hfind : (p.reset).1.find k with _ | ix <;> rw [hfind] at hf
      · exact reset_revents p hf
      · exact reset_revents p (mem_swapRemove hf)
    | set k ev =>
      simp only [Poll.apply, Poll.set] at hf
      rcases hfind : (p.reset).1.find k with _ | ix <;> rw [hfind] at hf
      · exact reset_revents p hf
      · rcases mem_modifyAt hf with h2 | ⟨y, hy, rfl⟩
        · exact reset_revents p h2
        · exact reset_revents (f := y) p hy
    | unset k ev =>
      simp only [Poll.apply, Poll.unset] at hf
      rcases hfind : (p.reset).1.find k with _ | ix <;> rw [hfind] at hf
      · exact reset_revents p hf
      · rcases mem_modifyAt hf with h2 | ⟨y, hy, rfl⟩
        · exact reset_revents p h2
        · exact reset_revents (f := y) p hy
  · cases op with
    | register k fd ev => rfl
    | unregister k =>
      simp only [Poll.apply, Poll.unregister]
      rcases hfind : (p.reset).1.find k with _ | ix <;> rfl
    | set k ev =>
      simp only [Poll.apply, Poll.set]
      rcases hfind : (p.reset).1.find k with _ | ix <;> rfl
    | unset k ev =>
      simp only [Poll.apply, Poll.unset]
      rcases hfind : (p.reset).1.find k with _ | ix <;> rfl




lemma reset_events_mem {K : Type} (p : Poll K) {f : PollFd}
    (h : f ∈ (p.reset).1.list) : ∃ g ∈ p.list, f.events = g.events := by
  simp only [Poll.reset, List.mem_map] at h
  rcases h with ⟨g, hg, rfl⟩
  exact ⟨g, hg, rfl⟩

lemma apply_maskOnlyRW {K : Type} [DecidableEq K] (p : Poll K) (op : Op K)
    (hp : ∀ f ∈ p.list, maskOnlyRW f.events) (hop : maskOnlyRW (opMask op)) :
    ∀ f ∈ (Poll.apply p op).list, maskOnlyRW f.events := by
  have hreset : ∀ f ∈ (p.reset).1.list, maskOnlyRW f.events := by
    intro f hf
    rcases reset_events_mem p hf with ⟨g, hg, he⟩
    rw [he]
    exact hp g hg
  intro f hf
  cases op with
  | register k fd ev =>
    simp only [Poll.apply, Poll.register, Poll.insert, List.mem_append] at hf
    rcases hf with hf | hf
    · exact hreset f hf
    · simp at hf
      subst hf
      exact hop
  | unregister k =>
    simp only [Poll.apply, Poll.unregister] at hf
    rcases hfind : (p.reset).1.find k with _ | ix <;> rw [hfind] at hf
    · exact hreset f hf
    · exact hreset f (mem_swapRemove hf)
  | set k ev =>
    simp only [Poll.apply, Poll.set] at hf
    rcases hfind : (p.reset).1.find k with _ | ix <;> rw [hfind] at hf
    · exact hreset f hf
    · rcases mem_modifyAt hf with h2 | ⟨y, hy, rfl⟩
      · exact hreset f h2
      · exact maskOnlyRW_or (hreset y hy) hop
  | unset k ev =>
    simp only [Poll.apply, Poll.unset] at hf
    rcases hfind : (p.reset).1.find k with _ | ix <;> rw [hfind] at hf
    · exact hreset f hf
    · rcases mem_modifyAt hf with h2 | ⟨y, hy, rfl⟩
      · exact hreset f h2
      · exact maskOnlyRW_and (hreset y hy)

lemma run_maskOnlyRW {K : Type} [DecidableEq K] :
    ∀ (ops : List (Op K)) (p : Poll K),
      (∀ f ∈ p.list, maskOnlyRW f.events) →
      (∀ op ∈ ops, maskOnlyRW (opMask op)) →
      ∀ f ∈ (Poll.run p ops).list, maskOnlyRW f.events := by
  intro ops
  induction ops with
  | nil => intro p hp _ ; exact hp
  | cons op ops ih =>
    intro p hp hops
    refine ih (Poll.apply p op) ?_ ?_
    · exact apply_maskOnlyRW p op hp (hops op (List.mem_cons_self op ops))
    · intro o ho
      exact hops o (List.mem_cons_of_mem _ ho)

/-- Claim C5 counterexample: registering with the event-mask argument
`POLLERR` stores `POLLERR` in the record's interest bits, which is not a
`READ`/`WRITE` class bit, so the claimed invariant fails under arbitrary
event-mask arguments. -/
theorem claim_c5_counterexample :
    (Poll.run (Poll.new (K := Nat)) [Op.register 0 3 event.POLLERR]).list
      = [{ fd := 3, events := event.POLLERR, revents := 0 }]
    ∧ ¬ maskOnlyRW event.POLLERR :=
  ⟨rfl, by decide⟩

/-- Claim C5 as amended: provided every event-mask argument passed to
register and set contains only `READ`/`WRITE` class bits, every registered
record's interest bits contain only `READ`/`WRITE` class bits, under every
sequence of register, set and unset operations (unset masks are
unrestricted); the registry preserves this invariant but does not enforce
it. -/
theorem claim_c5_theorem {K : Type} [DecidableEq K] (ops : List (Op K))
    (h : ∀ op ∈ ops, maskOnlyRW (opMask op)) :
    ∀ f ∈ (Poll.run Poll.new ops).list, maskOnlyRW f.events :=
  run_maskOnlyRW ops Poll.new (by intro f hf; simp [Poll.new] at hf) h

/-- Claim C5 witness: the amended invariant applied to the record produced
by a register/set/unset sequence with `READ`/`WRITE`-only masks. -/
theorem claim_c5_witness :
    maskOnlyRW ({ fd := 3, events := event.ALL, revents := 0 } : PollFd).events :=
  claim_c5_theorem demoOps (by decide) _ (by decide)


lemma swapRemove_map {α β : Type} (f : α → β) (l : List α) (ix : Nat) :
    (swapRemove l ix).map f = swapRemove (l.map f) ix := by
  unfold swapRemove
  cases hl : l.getLast? with
  | none =>
    have h2 : (l.map f).getLast? = none := by rw [List.getLast?_map, hl]; rfl
    rw [h2]
  | some last =>
    have h2 : (l.map f).getLast? = some (f last) := by rw [List.getLast?_map, hl]; rfl
    rw [h2]
    calc ((l.set ix last).dropLast).map f
        = ((l.set ix last).map f).dropLast := List.map_dropLast f _
      _ = ((l.map f).set ix (f last)).dropLast := by rw [List.map_set]

lemma map_fst_clearPair {K : Type} (zs : List (K × PollFd)) :
    (zs.map clearPair).map Prod.fst = zs.map Prod.fst := by
  rw [List.map_map]
  rfl

lemma map_snd_clearPair {K : Type} (zs : List (K × PollFd)) :
    (zs.map clearPair).map Prod.snd = (zs.map Prod.snd).map PollFd.clear := by
  rw [List.map_map, List.map_map]
  rfl

lemma map_fst_modifyAt {K : Type} (h : PollFd → PollFd) (i : Nat)
    (ws : List (K × PollFd)) :
    (modifyAt (fun z => (z.1, h z.2)) i ws).map Prod.fst = ws.map Prod.fst := by
  induction ws generalizing i with
  | nil => cases i <;> rfl
  | cons z ws ih =>
    cases i with
    | zero => simp [modifyAt]
    | succ n => simp [modifyAt, ih]

lemma map_snd_modifyAt {K : Type} (h : PollFd → PollFd) (i : Nat)
    (ws : List (K × PollFd)) :
    (modifyAt (fun z => (z.1, h z.2)) i ws).map Prod.snd
      = modifyAt h i (ws.map Prod.snd) := by
  induction ws generalizing i with
  | nil => cases i <;> rfl
  | cons z ws ih =>
    cases i with
    | zero => simp [modifyAt]
    | succ n => simp [modifyAt, ih]

lemma apply_paired {K : Type} [DecidableEq K] (c : Nat) (zs : List (K × PollFd))
    (op : Op K) :
    Poll.apply ⟨c, zs.map Prod.fst, zs.map Prod.snd⟩ op
      = ⟨0, (pairedApply zs op).map Prod.fst, (pairedApply zs op).map Prod.snd⟩ := by
  cases op with
  | register k fd ev =>
    simp only [Poll.apply, Poll.register, Poll.insert, Poll.reset, pairedApply]
    rw [List.map_append, List.map_append, map_fst_clearPair, map_snd_clearPair]
    rfl
  | unregister k =>
    simp only [Poll.apply, Poll.unregister, Poll.reset, Poll.find, pairedApply,
      map_fst_clearPair]
    cases hix : position k (zs.map Prod.fst) with
    | none =>
      dsimp only
      rw [map_fst_clearPair, map_snd_clearPair]
    | some ix =>
      have hfst : (swapRemove (zs.map clearPair) ix).map Prod.fst
          = swapRemove (zs.map Prod.fst) ix := by
        rw [swapRemove_map, map_fst_clearPair]
      have hsnd : (swapRemove (zs.map clearPair) ix).map Prod.snd
          = swapRemove ((zs.map Prod.snd).map PollFd.clear) ix := by
        rw [swapRemove_map, map_snd_clearPair]
      dsimp only
      rw [hfst, hsnd]
  | set k ev =>
    simp only [Poll.apply, Poll.set, Poll.reset, Poll.find, pairedApply,
      map_fst_clearPair]
    cases hix : position k (zs.map Prod.fst) with
    | none =>
      dsimp only
      rw [map_fst_clearPair, map_snd_clearPair]
    | some ix =>
      have hfst : (modifyAt (fun z => (z.1, z.2.set ev)) ix (zs.map clearPair)).map Prod.fst
          = zs.map Prod.fst := by
        have h1 := map_fst_modifyAt (fun f => f.set ev) ix (zs.map clearPair)
        rw [map_fst_clearPair] at h1
        exact h1
      have hsnd : (modifyAt (fun z => (z.1, z.2.set ev)) ix (zs.map clearPair)).map Prod.snd
          = modifyAt (fun f => f.set ev) ix ((zs.map Prod.snd).map PollFd.clear) := by
        have h1 := map_snd_modifyAt (fun f => f.set ev) ix (zs.map clearPair)
        rw [map_snd_clearPair] at h1
        exact h1
      dsimp only
      rw [hfst, hsnd]
  | unset k ev =>
    simp only [Poll.apply, Poll.unset, Poll.reset, Poll.find, pairedApply,
      map_fst_clearPair]
    cases hix : position k (zs.map Prod.fst) with
    | none =>
      dsimp only
      rw [map_fst_clearPair, map_snd_clearPair]
    | some ix =>
      have hfst : (modifyAt (fun z => (z.1, z.2.unset ev)) ix (zs.map clearPair)).map Prod.fst
          = zs.map Prod.fst := by
        have h1 := map_fst_modifyAt (fun f => f.unset ev) ix (zs.map clearPair)
        rw [map_fst_clearPair] at h1
        exact h1
      have hsnd : (modifyAt (fun z => (z.1, z.2.unset ev)) ix (zs.map clearPair)).map Prod.snd
          = modifyAt (fun f => f.unset ev) ix ((zs.map Prod.snd).map PollFd.clear) := by
        have h1 := map_snd_modifyAt (fun f => f.unset ev) ix (zs.map clearPair)
        rw [map_snd_clearPair] at h1
        exact h1
      dsimp only
      rw [hfst, hsnd]

lemma run_paired {K : Type} [DecidableEq K] :
    ∀ (ops : List (Op K)) (c : Nat) (zs : List (K × PollFd)),
      (Poll.run ⟨c, zs.map Prod.fst, zs.map Prod.snd⟩ ops).index
          = (ops.foldl pairedApply zs).map Prod.fst
      ∧ (Poll.run ⟨c, zs.map Prod.fst, zs.map Prod.snd⟩ ops).list
          = (ops.foldl pairedApply zs).map Prod.snd := by
  intro ops
  induction ops with
  | nil => intro c zs; exact ⟨rfl, rfl⟩
  | cons op ops ih =>
    intro c zs
    have h1 : Poll.run (⟨c, zs.map Prod.fst, zs.map Prod.snd⟩ : Poll K) (op :: ops)
        = Poll.run ⟨0, (pairedApply zs op).map Prod.fst,
            (pairedApply zs op).map Prod.snd⟩ ops := by
      simp only [Poll.run, List.foldl_cons]
      rw [apply_paired]
    rw [h1]
    simpa using ih 0 (pairedApply zs op)

/-- Claim C7: for every sequence of register, unregister, set and unset
operations from the empty registry, the keys and records sequences have
equal length and are the two projections of a single ghost list of
key/record pairs in which each pair was appended by one register call, so
the key at index i belongs to the record at index i. -/
theorem claim_c7_theorem {K : Type} [DecidableEq K] (ops : List (Op K)) :
    (Poll.run Poll.new ops).index.length = (Poll.run Poll.new ops).list.length
    ∧ (Poll.run Poll.new ops).index = (pairedRun ops).map Prod.fst
    ∧ (Poll.run Poll.new ops).list = (pairedRun ops).map Prod.snd
    ∧ ∀ i : Nat,
        (Poll.run Poll.new ops).index[i]? = ((pairedRun ops)[i]?).map Prod.fst
        ∧ (Poll.run Poll.new ops).list[i]? = ((pairedRun ops)[i]?).map Prod.snd := by
  have hnew : (Poll.new : Poll K)
      = ⟨0, ([] : List (K × PollFd)).map Prod.fst, ([] : List (K × PollFd)).map Prod.snd⟩ :=
    rfl
  have h := run_paired ops 0 ([] : List (K × PollFd))
  rw [hnew, pairedRun]
  refine ⟨?_, h.1, h.2, ?_⟩
  · rw [h.1, h.2, List.length_map, List.length_map]
  · intro i
    rw [h.1, h.2, List.getElem?_map, List.getElem?_map]
    exact ⟨rfl, rfl⟩


/-- Claim C8: driving the iterator yields exactly the key/record pairs
whose record has non-empty `revents`, in current storage order, when the
two sequences have equal length, and panics (`none`) exactly when the two
sequences are exhausted at different times; the records are returned
unmodified (the model is pure, mirroring the shared-borrow iterator). -/
theorem claim_c8_theorem {K : Type} (ks : List K) (fs : List PollFd) :
    iterAll ks fs =
      if ks.length = fs.length
      then some ((ks.zip fs).filter (fun z => z.2.has_events))
      else none := by
  induction ks generalizing fs with
  | nil =>
    cases fs with
    | nil => simp [iterAll]
    | cons f fs => simp [iterAll]
  | cons k ks ih =>
    cases fs with
    | nil => simp [iterAll]
    | cons f fs =>
      simp only [iterAll, List.zip_cons_cons, List.filter_cons, List.length_cons]
      rw [ih]
      by_cases hl : ks.length = fs.length
      · by_cases he : f.has_events <;> simp [hl, he]
      · by_cases he : f.has_events <;> simp [hl, he]

lemma waker_reset_ok (b : Nat) : Waker.reset b = Except.ok () := by
  induction b using Nat.strong_induction_on with
  | _ b ih =>
    rw [Waker.reset]
    split
    · rfl
    · rename_i hb
      exact ih _ (by omega)

lemma wake_ok_buf (tr : List WriteEv) :
    ∀ (st st2 : WakerSt), Waker.wake st tr = some (st2, Except.ok ()) → 1 ≤ st2.buf := by
  induction tr with
  | nil =>
    intro st st2 h
    simp [Waker.wake] at h
  | cons ev rest ih =>
    intro st st2 h
    cases ev with
    | signal => exact ih st st2 h
    | fail e =>
      simp only [Waker.wake, Option.some.injEq, Prod.mk.injEq] at h
      exact absurd h.2 (by simp)
    | proceed =>
      by_cases hb : st.buf < st.cap
      · simp only [Waker.wake, if_pos hb, Option.some.injEq, Prod.mk.injEq] at h
        rw [← h.1]
        simp
      · simp only [Waker.wake, if_neg hb, waker_reset_ok] at h
        exact ih _ st2 h

/-- Claim C9: `wake` writes a single byte and returns Ok on success
(buffer below capacity); on `WouldBlock` (buffer full) it drains the
reader via `Waker::reset` and retries; on `Interrupted` it retries; any
other error is surfaced; and every successful `wake` leaves at least one
unread byte in the reader end. -/
theorem claim_c9_theorem (st : WakerSt) (rest : List WriteEv) (e : Int) :
    Waker.wake st (.signal :: rest) = Waker.wake st rest
    ∧ Waker.wake st (.fail e :: rest) = some (st, .error e)
    ∧ (st.buf < st.cap →
        Waker.wake st (.proceed :: rest) = some ({ st with buf := st.buf + 1 }, .ok ()))
    ∧ (¬ st.buf < st.cap →
        Waker.reset st.buf = .ok () ∧
        Waker.wake st (.proceed :: rest) = Waker.wake { st with buf := 0 } rest)
    ∧ (∀ (tr : List WriteEv) (st2 : WakerSt),
        Waker.wake st tr = some (st2, .ok ()) → 1 ≤ st2.buf) := by
  refine ⟨rfl, rfl, ?_, ?_, fun tr st2 h => wake_ok_buf tr st st2 h⟩
  · intro hb
    simp [Waker.wake, hb]
  · intro hb
    refine ⟨waker_reset_ok st.buf, ?_⟩
    simp [Waker.wake, hb, waker_reset_ok]

/-- Claim C9 witness: a wake on an empty one-byte buffer succeeds and
leaves one unread byte. -/
theorem claim_c9_witness :
    Waker.wake ⟨0, 1⟩ [WriteEv.proceed] = some (⟨1, 1⟩, Except.ok ())
    ∧ 1 ≤ (1 : Nat) :=
  ⟨(claim_c9_theorem ⟨0, 1⟩ [] 0).2.2.1 (by decide),
   (claim_c9_theorem ⟨0, 1⟩ [] 0).2.2.2.2 [WriteEv.proceed] ⟨1, 1⟩
     ((claim_c9_theorem ⟨0, 1⟩ [] 0).2.2.1 (by decide))⟩



lemma position_spec {K : Type} [DecidableEq K] {key : K} :
    ∀ {l : List K} {i : Nat}, position key l = some i →
      l[i]? = some key ∧ ∀ j, j < i → l[j]? ≠ some key := by
  intro l
  induction l with
  | nil => intro i h; simp [position] at h
  | cons k ks ih =>
    intro i h
    by_cases hk : k = key
    · simp only [position, if_pos hk, Option.some.injEq] at h
      subst h
      subst hk
      exact ⟨by simp, fun j hj => absurd hj (Nat.not_lt_zero j)⟩
    · simp only [position, if_neg hk] at h
      cases hp : position key ks with
      | none =>
        rw [hp] at h
        exact absurd h (by simp)
      | some i2 =>
        rw [hp] at h
        simp only [Option.map_some', Option.some.injEq] at h
        subst h
        obtain ⟨h1, h2⟩ := ih hp
        refine ⟨by simpa using h1, ?_⟩
        intro j hj
        cases j with
        | zero =>
          simp only [List.getElem?_cons_zero, ne_eq, Option.some.injEq]
          exact hk
        | succ j2 =>
          simp only [List.getElem?_cons_succ]
          exact h2 j2 (by omega)

lemma getElem?_modifyAt_ne {α : Type} (f : α → α) :
    ∀ (i j : Nat) (l : List α), j ≠ i → (modifyAt f i l)[j]? = l[j]? := by
  intro i j l
  induction l generalizing i j with
  | nil => intro _; cases i <;> rfl
  | cons a l ih =>
    intro hne
    cases i with
    | zero =>
      cases j with
      | zero => exact absurd rfl hne
      | succ j2 => simp [modifyAt]
    | succ n =>
      cases j with
      | zero => simp [modifyAt]
      | succ j2 =>
        simp only [modifyAt, List.getElem?_cons_succ]
        exact ih n j2 (by omega)

lemma getElem?_modifyAt_eq {α : Type} (f : α → α) :
    ∀ (i : Nat) (l : List α), (modifyAt f i l)[i]? = (l[i]?).map f := by
  intro i l
  induction l generalizing i with
  | nil => cases i <;> rfl
  | cons a l ih =>
    cases i with
    | zero => simp [modifyAt]
    | succ n =>
      simp only [modifyAt, List.getElem?_cons_succ]
      exact ih n

/-- Claim C10: when `find` locates a key at index i, that index is the
lowest whose key equals the argument, and get/get_mut/set/unset/unregister
all act on the record at index i: get and get_mut return it, set and unset
rewrite exactly position i of the reset record list (every other position,
including later duplicates of the key, holds its reset value), and
unregister swap-removes position i from both sequences. -/
theorem claim_c10_theorem {K : Type} [DecidableEq K] (p : Poll K) (key : K) (i : Nat)
    (ev : Event) (h : p.find key = some i) :
    (p.index[i]? = some key ∧ ∀ j, j < i → p.index[j]? ≠ some key)
    ∧ p.get key = p.list[i]?
    ∧ p.get_mut key = p.list[i]?
    ∧ (p.set key ev).2 = true
    ∧ (p.set key ev).1.list[i]? = (((p.reset).1.list)[i]?).map (fun f => f.set ev)
    ∧ (∀ j, j ≠ i → (p.set key ev).1.list[j]? = ((p.reset).1.list)[j]?)
    ∧ (p.unset key ev).2 = true
    ∧ (p.unset key ev).1.list[i]? = (((p.reset).1.list)[i]?).map (fun f => f.unset ev)
    ∧ (∀ j, j ≠ i → (p.unset key ev).1.list[j]? = ((p.reset).1.list)[j]?)
    ∧ (p.unregister key).index = swapRemove p.index i
    ∧ (p.unregister key).list = swapRemove ((p.reset).1.list) i := by
  have hq : ((p.reset).1).find key = some i := h
  refine ⟨position_spec h, ?_, ?_, ?_, ?_, ?_, ?_, ?_, ?_, ?_, ?_⟩
  · simp [Poll.get, h]
  · simp [Poll.get_mut, h]
  · simp [Poll.set, hq]
  · simp only [Poll.set, hq]
    exact getElem?_modifyAt_eq _ i _
  · intro j hj
    simp only [Poll.set, hq]
    exact getElem?_modifyAt_ne _ i j _ hj
  · simp [Poll.unset, hq]
  · simp only [Poll.unset, hq]
    exact getElem?_modifyAt_eq _ i _
  · intro j hj
    simp only [Poll.unset, hq]
    exact getElem?_modifyAt_ne _ i j _ hj
  · have hq2 : (Poll.mk 0 p.index (p.list.map PollFd.clear)).find key = some i := h
    simp [Poll.unregister, Poll.reset, hq2]
  · have hq2 : (Poll.mk 0 p.index (p.list.map PollFd.clear)).find key = some i := h
    simp [Poll.unregister, Poll.reset, hq2]

/-- Claim C10 witness: on a registry where key 7 is registered at indices
0 and 1, `get` returns the index-0 record and `set` leaves the index-1
record untouched beyond the reset. -/
theorem claim_c10_witness :
    demoDup.get 7 = some ⟨3, event.READ, 0⟩
    ∧ (demoDup.set 7 event.WRITE).1.list[1]? = ((demoDup.reset).1.list)[1]? :=
  ⟨((claim_c10_theorem demoDup 7 0 event.WRITE (by decide)).2.1).trans rfl,
   (claim_c10_theorem demoDup 7 0 event.WRITE (by decide)).2.2.2.2.2.1 1 (by decide)⟩

/-- Claim C6 witness: after a `set` on a registry holding one event, the
record's `revents` and the count are both zero. -/
theorem claim_c6_witness :
    ({ fd := 3, events := event.READ ||| event.WRITE, revents := 0 } : PollFd).revents = 0
    ∧ (Poll.apply demoPoll (Op.set 0 event.WRITE)).events_count = 0 :=
  ⟨(claim_c6_theorem demoPoll (Op.set 0 event.WRITE)).1 _ (by decide),
   (claim_c6_theorem demoPoll (Op.set 0 event.WRITE)).2.1⟩

end Popol
